import Mathlib

/-!
Verification development for the reputation-analyzer extraction-and-ledger
pipeline.

The Python sources are shallowly embedded as executable Lean definitions:

* floating-point scores are modelled as rationals (`ℚ`); the scores handled by
  the pipeline are short decimal literals, on which rational arithmetic agrees
  with IEEE semantics for the comparisons performed here;
* a pandas `DataFrame` indexed by the `Hotel` column is modelled by `Table`
  (a column-header list plus one `(hotel, cells)` row per hotel);
* `None`/`NaN`/`pd.NA` cells are modelled by `Option ℚ` being `none`;
* Python exceptions that a function converts to `None` are modelled by the
  function returning `none`.

Each definition carries a comment naming the source function it embeds.
-/

namespace RepAnalyzer

/-- A transient extraction candidate: (confidence rank, extracted value).
Embeds the `(rank, score)` tuples built by `_extract_jsonld_score` and
`_extract_embedded_json_score` in `src/sites/expedia.py`. -/
abbrev Cand := Int × ℚ

/-- The (non-strict) descending lexicographic comparison used by
`candidates.sort(key=lambda x: (x[0], x[1]), reverse=True)`:
`candGE a b` holds when `a` sorts no later than `b`, i.e. when `a` has the
larger rank, or equal rank and the larger-or-equal value. -/
def candGE (a b : Cand) : Prop := b.1 < a.1 ∨ (a.1 = b.1 ∧ b.2 ≤ a.2)

instance : DecidableRel candGE := fun a b => by
  unfold candGE; exact inferInstance

instance : IsTotal Cand candGE := by
  constructor
  intro a b
  rcases lt_trichotomy a.1 b.1 with h | h | h
  · exact Or.inr (Or.inl h)
  · rcases le_total b.2 a.2 with h2 | h2
    · exact Or.inl (Or.inr ⟨h, h2⟩)
    · exact Or.inr (Or.inr ⟨h.symm, h2⟩)
  · exact Or.inl (Or.inl h)

instance : IsTrans Cand candGE := by
  constructor
  intro a b c hab hbc
  rcases hab with h1 | ⟨h1, h1v⟩ <;> rcases hbc with h2 | ⟨h2, h2v⟩
  · exact Or.inl (lt_trans h2 h1)
  · exact Or.inl (h2 ▸ h1)
  · exact Or.inl (h1 ▸ h2)
  · exact Or.inr ⟨h1.trans h2, h2v.trans h1v⟩

/-- The shared resolution policy of `_extract_jsonld_score` (lines 161-165) and
`_extract_embedded_json_score` (lines 247-251) of `src/sites/expedia.py`:
if no candidates survive, return `None`; otherwise sort the candidates by
`(rank, value)` descending and return the top entry's value. -/
def resolveCandidates (l : List Cand) : Option ℚ :=
  match List.insertionSort candGE l with
  | [] => none
  | c :: _ => some c.2

/-- The composition of the four extraction strategies in `get_expedia_score`
(`src/sites/expedia.py`, lines 292-315), parameterised by each strategy's
result on the fetched page: the JSON-LD strategy's surviving candidates, the
semantic-div and textual strategies' optional single scores, and the
embedded-JSON strategy's surviving candidates.  The source tries each strategy
in turn and returns as soon as one yields a score. -/
def get_expedia_score (jsonldCands : List Cand) (semanticDiv textual : Option ℚ)
    (embeddedCands : List Cand) : Option ℚ :=
  match resolveCandidates jsonldCands with
  | some score => some score
  | none =>
    match semanticDiv with
    | some score => some score
    | none =>
      match textual with
      | some score => some score
      | none => resolveCandidates embeddedCands

/-- `c` is an ASCII decimal digit (what `\d` matches on the payloads at hand
and what `float` accepts in a numeral). -/
def isDigitChar (c : Char) : Bool := 48 ≤ c.toNat && c.toNat ≤ 57

/-- Numeric value of a digit character. -/
def charDigit (c : Char) : ℕ := c.toNat - 48

/-- Digit character of a value `< 10`. -/
def digitChar (d : ℕ) : Char := Char.ofNat (48 + d)

/-- Value of a big-endian digit-character string. -/
def digitsVal (cs : List Char) : ℕ := cs.foldl (fun a c => 10 * a + charDigit c) 0

/-- Core of Python `float` on an unsigned decimal numeral: digits, optionally
followed by a point and further digits (at least one digit overall).  The
pipeline only ever feeds `float` strings of this shape (regex captures of
`\d+(\.\d+)?`, scraped text, or CSV fields); every other input makes `float`
raise, which the callers convert to `None`. -/
def pyFloatCore (cs : List Char) : Option ℚ :=
  if cs.dropWhile isDigitChar = [] then
    if cs.takeWhile isDigitChar = [] then none
    else some (digitsVal (cs.takeWhile isDigitChar))
  else if (cs.dropWhile isDigitChar).head? = some '.' then
    if cs.takeWhile isDigitChar = [] ∧ (cs.dropWhile isDigitChar).tail = [] then none
    else if ((cs.dropWhile isDigitChar).tail).all isDigitChar then
      some ((digitsVal (cs.takeWhile isDigitChar) : ℚ) +
        (digitsVal ((cs.dropWhile isDigitChar).tail) : ℚ) /
          (10 : ℚ) ^ ((cs.dropWhile isDigitChar).tail).length)
    else none
  else none

/-- Python `float(s)` on decimal numerals (with an optional sign), returning
`none` where `float` raises `ValueError`. -/
def pyFloat? (s : String) : Option ℚ :=
  match s.data with
  | [] => none
  | c :: rest =>
    if c = '-' then (pyFloatCore rest).map (fun q => -q)
    else if c = '+' then pyFloatCore rest
    else pyFloatCore (c :: rest)

/-- Python `val.replace(",", ".")` for the one-character pattern used in
`fetch_booking_rating`. -/
def commaToDot (s : String) : String := String.mk (s.data.map (fun c => if c = ',' then '.' else c))

/-- `_safe_float` of `src/sites/expedia.py` (lines 116-125): parse the value
with `float` (a failure, including a comma decimal separator, yields `None`)
and keep it only when it lies in `[0, 10]`. -/
def _safe_float : Option String → Option ℚ
  | none => none
  | some s =>
    match pyFloat? s with
    | none => none
    | some score => if 0 ≤ score ∧ score ≤ 10 then some score else none

/-- `fetch_booking_rating` of `src/sites/booking.py` (lines 99-134), modelled
past the HTTP layer: the argument lists, for each parsed JSON-LD object of the
page in document order, its `aggregateRating -> ratingValue` field stringified
(`none` when the object has no such field).  The source returns
`float(val.replace(",", "."))` for the first object carrying the field; no
range check is applied.  An unparsable value raises inside the `try` block,
which after the retry loop yields `None`. -/
def fetch_booking_rating (ratingFields : List (Option String)) : Option ℚ :=
  match (ratingFields.filterMap id).head? with
  | none => none
  | some val => pyFloat? (commaToDot val)

/-- A per-source ledger: the pandas `DataFrame` with index column `Hotel`.
`cols` are the non-index column headers in order; each row pairs a hotel key
with its cells, positionally aligned with `cols`. -/
structure Table where
  cols : List String
  rows : List (String × List (Option ℚ))
deriving DecidableEq, Repr

/-- Well-formedness: every row has one cell per column header. -/
def TableWF (t : Table) : Prop := ∀ r ∈ t.rows, r.2.length = t.cols.length

instance : DecidablePred TableWF := fun t => by
  unfold TableWF; exact inferInstance

/-- First index of a header in a column list (pandas column lookup). -/
def idxOf? (c : String) : List String → Option ℕ
  | [] => none
  | a :: l => if a = c then some 0 else (idxOf? c l).map (fun i => i + 1)

/-- The cells of the row keyed `k` (`df.loc[k]`), if any. -/
def rowOf (t : Table) (k : String) : Option (List (Option ℚ)) :=
  (t.rows.find? (fun r => r.1 == k)).map (fun r => r.2)

/-- The cell at row key `k`, column header `c` (`df.loc[k, c]`), `none` when
the row or column is missing or the cell is null. -/
def getCell (t : Table) (k c : String) : Option ℚ :=
  match rowOf t k, idxOf? c t.cols with
  | some cells, some i => (cells[i]?).join
  | _, _ => none

/-- `df[name] = <series computed row-wise by f>`: overwrite the column `name`
when it exists, else append it on the right; each row's new cell is `f` of the
row.  This is the common shape of every column assignment in the sources
(`update_average`'s mean series, `df[today_col] = pd.Series(new_scores)`,
`df["Average Score"] = pd.NA`). -/
def setColF (t : Table) (name : String) (f : String × List (Option ℚ) → Option ℚ) : Table :=
  match idxOf? name t.cols with
  | some i =>
    { cols := t.cols
      rows := t.rows.map (fun r => (r.1, r.2.set i (f r))) }
  | none =>
    { cols := t.cols ++ [name]
      rows := t.rows.map (fun r => (r.1, r.2 ++ [f r])) }

/-- The date-column test `DATE_COL_RE.fullmatch(c)` shared by
`src/sites/booking.py` (line 94), `src/sites/expedia.py` (line 66),
`src/sites/google.py` (line 88) and `dashboard/app.py` (line 76): the whole
header is four digits, a dash, two digits, a dash, two digits. -/
def isDateCol (s : String) : Bool :=
  match s.data with
  | [a, b, c, d, h1, e, f, h2, g, i] =>
    isDigitChar a && isDigitChar b && isDigitChar c && isDigitChar d && h1 == '-' &&
      isDigitChar e && isDigitChar f && h2 == '-' && isDigitChar g && isDigitChar i
  | _ => false

/-- The date-shaped column headers of a table, in order
(`date_cols = [c for c in df.columns if ... DATE_COL_RE.fullmatch(c)]`). -/
def dateColsOf (t : Table) : List String := t.cols.filter (fun c => isDateCol c)

/-- A row's cells restricted to the date-shaped columns (`df[date_cols]`,
row-wise). -/
def rowDateCells (cols : List String) (cells : List (Option ℚ)) : List (Option ℚ) :=
  ((cols.zip cells).filter (fun p => isDateCol p.1)).map (fun p => p.2)

/-- `Series.mean()` over one row: the mean of the non-null cells, `NaN` (here
`none`) when every cell is null. -/
def rowMean (cells : List (Option ℚ)) : Option ℚ :=
  let vals := cells.filterMap id
  if vals.length = 0 then none else some (vals.sum / (vals.length : ℚ))

/-- Round half to even at integer precision, the rounding used by
`numpy`/`pandas` `.round`. -/
def roundHalfEven (q : ℚ) : ℤ :=
  if q - ⌊q⌋ < 1 / 2 then ⌊q⌋
  else if q - ⌊q⌋ > 1 / 2 then ⌊q⌋ + 1
  else if ⌊q⌋ % 2 = 0 then ⌊q⌋ else ⌊q⌋ + 1

/-- `.round(2)`: round half to even at two decimal places. -/
def round2 (q : ℚ) : ℚ := (roundHalfEven (q * 100) : ℚ) / 100

/-- The common shape of the three `update_average` functions: when at least
one date-shaped column exists, overwrite `Average Score` with each row's mean
over the date columns post-processed by `post`; when no date-shaped column
exists, leave the table untouched (`if date_cols:` guard). -/
def updateAverageWith (post : Option ℚ → Option ℚ) (t : Table) : Table :=
  if dateColsOf t = [] then t
  else setColF t "Average Score" (fun r => post (rowMean (rowDateCells t.cols r.2)))

/-- `update_average` of `src/sites/booking.py` (lines 162-169):
`df[date_cols].mean(axis=1, numeric_only=True)` with no rounding. -/
def update_average_booking : Table → Table := updateAverageWith (fun m => m)

/-- `update_average` of `src/sites/expedia.py` (lines 353-360): the mean
followed by `.round(2)`. -/
def update_average_expedia : Table → Table := updateAverageWith (fun m => m.map round2)

/-- `update_average` of `src/sites/google.py` (lines 168-175): identical to
the Expedia variant (mean followed by `.round(2)`). -/
def update_average_google : Table → Table := updateAverageWith (fun m => m.map round2)

/-- `df[today_col] = pd.Series(new_scores)` (`src/sites/booking.py` line 216,
`src/sites/expedia.py` line 450): replace (or append) the whole column, each
row receiving the score mapped to its hotel key, `NaN` for keys the series
does not cover or whose score is `None`. -/
def setColByKey (t : Table) (name : String) (scores : List (String × Option ℚ)) : Table :=
  setColF t name (fun r => (scores.lookup r.1).join)

/-- The ledger mutation of one run of `main` in `src/sites/booking.py`
(lines 215-217): write the run date's column from the per-hotel resolved
scores, then recompute the average — the Reconciler's `applyRun` minus the
surrounding load and save. -/
def applyRun_booking (t : Table) (d : String) (scores : List (String × Option ℚ)) : Table :=
  update_average_booking (setColByKey t d scores)

/-- `for h in hotels: if h not in df.index: df.loc[h] = pd.Series(dtype="float64")`
(one iteration): insert an all-null row for a missing hotel key; a present key
leaves the table unchanged. -/
def ensure_row (t : Table) (k : String) : Table :=
  if k ∈ t.rows.map (fun r => r.1) then t
  else { cols := t.cols, rows := t.rows ++ [(k, List.replicate t.cols.length none)] }

/-- `if c not in df.columns: df[c] = pd.NA` (`ensure_csv`, `set_manual_score`,
`_ensure_header`): insert an all-null column for a missing header; a present
header leaves the table unchanged. -/
def ensure_column (t : Table) (c : String) : Table :=
  if c ∈ t.cols then t
  else { cols := t.cols ++ [c], rows := t.rows.map (fun r => (r.1, r.2 ++ [none])) }

/-- Decimal digit characters of `n` (big-endian), as printed by Python. -/
def natChars (n : ℕ) : List Char :=
  if n = 0 then ['0'] else ((Nat.digits 10 n).reverse.map digitChar)

/-- Decimal serialization of a non-negative score with denominator dividing
`10 ^ 9`, written with exactly nine fractional digits.  Value-faithful model
of the numeric formatting of `DataFrame.to_csv` (which prints the shortest
decimal reparsing to the same value; both spellings parse back equally). -/
def printQ (q : ℚ) : String :=
  let n := (q * 10 ^ 9).num.toNat
  String.mk (natChars (n / 10 ^ 9) ++
    '.' :: (List.replicate (9 - (natChars (n % 10 ^ 9)).length) '0' ++ natChars (n % 10 ^ 9)))

/-- One CSV field written by `to_csv`: the empty field for a null cell, the
decimal spelling otherwise. -/
def printCell : Option ℚ → String
  | none => ""
  | some q => printQ q

/-- One CSV field read by `read_csv`: an empty field is `NaN`, otherwise the
field is parsed as a float.  (Fields that parse as neither — impossible for
fields written by `printCell` — also read back as null here.) -/
def parseCell (s : String) : Option ℚ :=
  if s.data = [] then none else pyFloat? s

/-- `df.to_csv(csv_path, sep=sep, index_label="Hotel")` up to the final
join-with-separator (the excluded I/O layer): the header row `Hotel, <cols>`,
then one row of fields per hotel. -/
def saveTable (t : Table) : List (List String) :=
  ("Hotel" :: t.cols) :: t.rows.map (fun r => r.1 :: r.2.map printCell)

/-- `pd.read_csv(csv_path, sep=sep, index_col="Hotel")` on the split field
rows: fails (raises, modelled as `none`) when the header lacks the mandatory
`Hotel` column, else keys each row by its `Hotel` field and parses the
remaining fields. -/
def loadCSV (file : List (List String)) : Option Table :=
  match file with
  | [] => none
  | header :: body =>
    match idxOf? "Hotel" header with
    | none => none
    | some i =>
      some { cols := header.eraseIdx i
             rows := body.map (fun r =>
               (((r[i]?).getD ""), (r.eraseIdx i).map parseCell)) }

/-- `ensure_csv` of `src/sites/booking.py` (lines 139-159) on an existing
file: `read_csv` with `index_col="Hotel"`, then insert missing hotel rows,
then ensure the `Average Score` column.  A `read_csv` failure propagates
(`none`). -/
def ensure_csv (file : List (List String)) (hotels : List String) : Option Table :=
  (loadCSV file).map (fun df => ensure_column (hotels.foldl ensure_row df) "Average Score")

/-- The on-disk effect of one run of `main` in `src/sites/booking.py`: load
via `ensure_csv`, apply the run, save.  The result is the file written back;
`none` means the run aborted before any write (the previous file survives). -/
def run_booking_main (file : List (List String)) (hotels : List String) (d : String)
    (scores : List (String × Option ℚ)) : Option (List (List String)) :=
  (ensure_csv file hotels).map (fun df => saveTable (applyRun_booking df d scores))

/-- Python `str.strip()` on ASCII whitespace. -/
def isPySpace (c : Char) : Bool :=
  c == ' ' || c == '\t' || c == '\n' || c == '\r' || c == '\x0b' || c == '\x0c'

/-- `s.strip()`: drop leading and trailing whitespace. -/
def pyStrip (s : String) : String :=
  String.mk (((s.data.dropWhile isPySpace).reverse.dropWhile isPySpace).reverse)

/-- The per-column aggregation of `groupby("Hotel").first()`: for each column
position, the first non-null cell among the group's rows (`NaN` when every
cell is null). -/
def firstNonNullCells (n : ℕ) (grp : List (String × List (Option ℚ))) : List (Option ℚ) :=
  (List.range n).map (fun j => (grp.filterMap (fun r => (r.2[j]?).join)).head?)

/-- `load_source_df` of `dashboard/app.py` (lines 65-73): `read_csv` without
an index column; `None` when the `Hotel` column is missing; strip every hotel
key; `groupby("Hotel", as_index=False).first()` — group keys sorted
ascending (pandas' default `sort=True`), one row per distinct key, each cell
the first non-null value among the key's rows. -/
def load_source_df (file : List (List String)) : Option Table :=
  (loadCSV file).map (fun t0 =>
    Table.mk t0.cols
      ((List.insertionSort (fun a b : String => a ≤ b)
          ((t0.rows.map (fun r => (pyStrip r.1, r.2))).map (fun r => r.1))).dedup.map
        (fun k => (k, firstNonNullCells t0.cols.length
          ((t0.rows.map (fun r => (pyStrip r.1, r.2))).filter (fun r => r.1 == k))))))

/-- Concrete ledger for the C2 counterexample: three date columns holding
`1, 1, 2`. -/
def tC2 : Table :=
  { cols := ["2025-01-01", "2025-01-02", "2025-01-03", "Average Score"]
    rows := [("H", [some 1, some 1, some 2, none])] }

/-- Concrete ledger for the C2 counterexample: no date-shaped column and a
stale non-null Average cell. -/
def tC2b : Table :=
  { cols := ["Average Score"]
    rows := [("H", [some 9])] }

/-- Concrete ledger for the C2 witness: the spec's example row
`[4.5, null, 3.8]`. -/
def tC2w : Table :=
  { cols := ["2025-01-01", "2025-01-02", "2025-01-03", "Average Score"]
    rows := [("H", [some (4.5 : ℚ), none, some (3.8 : ℚ), none])] }

/-- Concrete ledger for the C10 witness: only non-date columns, with values. -/
def tC10 : Table :=
  { cols := ["Average Score", "notes"]
    rows := [("H", [some 9, some 1])] }

/-- Concrete ledger for the C9 witness. -/
def tC9 : Table := { cols := ["Average Score"], rows := [("A", [none])] }

/-- Concrete ledger for the C7 witness: two hotels, one existing date column. -/
def tC7 : Table :=
  { cols := ["2025-01-01", "Average Score"]
    rows := [("A", [some 8, none]), ("B", [none, none])] }

/-- Concrete CSV for the C5 counterexample: duplicate hotel rows where the
first-seen row's cell is null and the duplicate's holds `7.0`. -/
def fileC5 : List (List String) :=
  [["Hotel", "2025-01-01"], ["Hotel A", ""], [" Hotel A ", "7.0"]]

/-- Concrete CSV for the C5 witness. -/
def fileC5w : List (List String) :=
  [["Hotel", "2025-01-01"], ["Hotel A ", "4.5"], ["Hotel A", "3.0"], ["B", ""]]

/-- Concrete ledger for the C3 counterexample. -/
def tC3 : Table := { cols := ["Average Score"], rows := [("H", [none])] }

/-- A score cell is representable when it is a non-negative multiple of
`10 ^ -9` — true of every value the pipeline writes (one-decimal scores and
two-decimal averages). -/
def RepCell (c : Option ℚ) : Prop := ∀ q, c = some q → ∃ m : ℕ, q * 10 ^ 9 = (m : ℚ)

/-- Concrete ledger for the C6 witness. -/
def tC6 : Table :=
  { cols := ["2025-01-01", "Average Score"]
    rows := [("A", [some (8.6 : ℚ), none])] }

/- ------------------------------------------------------------------ -/
/- Theorems                                                            -/
/- ------------------------------------------------------------------ -/

/-- Reflexivity of the sort comparison. -/
theorem candGE_refl (a : Cand) : candGE a a := Or.inr ⟨rfl, le_refl _⟩

/- Helper lemmas about the column-index and row-lookup functions. -/

theorem idxOf?_eq_none_iff (c : String) (l : List String) : idxOf? c l = none ↔ c ∉ l := by
  induction l with
  | nil => simp [idxOf?]
  | cons a l ih =>
    by_cases h : a = c
    · subst h
      simp [idxOf?]
    · simp [idxOf?, h, Option.map_eq_none', ih, Ne.symm h]

theorem idxOf?_getElem (c : String) (l : List String) (i : ℕ) (h : idxOf? c l = some i) :
    i < l.length ∧ l[i]? = some c := by
  induction l generalizing i with
  | nil => simp [idxOf?] at h
  | cons a l ih =>
    by_cases ha : a = c
    · subst ha
      simp [idxOf?] at h
      subst h
      simp
    · simp only [idxOf?, if_neg ha, Option.map_eq_some'] at h
      obtain ⟨j, hj, rfl⟩ := h
      obtain ⟨hlt, hg⟩ := ih j hj
      refine ⟨by simpa using Nat.succ_lt_succ hlt, by simpa using hg⟩

theorem idxOf?_append_self (c : String) (l : List String) (h : c ∉ l) :
    idxOf? c (l ++ [c]) = some l.length := by
  induction l with
  | nil => simp [idxOf?]
  | cons a l ih =>
    rw [List.mem_cons] at h
    push_neg at h
    have ha : a ≠ c := fun e => h.1 e.symm
    simp [idxOf?, ha, ih h.2]

theorem idxOf?_append_ne (c a : String) (l : List String) (h : c ≠ a) :
    idxOf? c (l ++ [a]) = idxOf? c l := by
  induction l with
  | nil => simp [idxOf?, Ne.symm h]
  | cons b l ih => by_cases hb : b = c <;> simp [idxOf?, hb, ih]

theorem find?_map_keyed {α β : Type} (rows : List (String × α)) (g : String × α → String × β)
    (hg : ∀ r, (g r).1 = r.1) (k : String) :
    (rows.map g).find? (fun r => r.1 == k) = (rows.find? (fun r => r.1 == k)).map g := by
  rw [List.find?_map]
  have he : ((fun r : String × β => r.1 == k) ∘ g) = (fun r : String × α => r.1 == k) := by
    funext r
    simp [Function.comp, hg r]
  rw [he]

theorem find?_keys_nodup {α : Type} (rows : List (String × α))
    (h : (rows.map (fun r => r.1)).Nodup) (k : String) (v : α) (hm : (k, v) ∈ rows) :
    rows.find? (fun r => r.1 == k) = some (k, v) := by
  induction rows with
  | nil => cases hm
  | cons r rows ih =>
    rw [List.map_cons, List.nodup_cons] at h
    rcases List.mem_cons.mp hm with hv | hm'
    · subst hv
      simp
    · have hk : r.1 ≠ k := by
        intro e
        exact h.1 (e ▸ List.mem_map.mpr ⟨(k, v), hm', rfl⟩)
      simp [List.find?_cons, hk, ih h.2 hm']

theorem map_eq_self_of {α : Type} (l : List α) (f : α → α) (h : ∀ a ∈ l, f a = a) :
    l.map f = l := by
  induction l with
  | nil => rfl
  | cons a l ih =>
    rw [List.map_cons, h a (List.mem_cons_self a l),
      ih (fun b hb => h b (List.mem_cons.mpr (Or.inr hb)))]

theorem set_getElem?_self {α : Type} (l : List α) (i : ℕ) (a : α) (h : l[i]? = some a) :
    l.set i a = l := by
  induction l generalizing i with
  | nil => simp at h
  | cons b l ih =>
    cases i with
    | zero =>
      simp at h
      simp [h]
    | succ j =>
      simp at h
      simp [ih j h]

/- Structural lemmas about `setColF`. -/

theorem setColF_keys (t : Table) (name : String) (f : String × List (Option ℚ) → Option ℚ) :
    (setColF t name f).rows.map (fun r => r.1) = t.rows.map (fun r => r.1) := by
  unfold setColF
  cases idxOf? name t.cols <;> simp

theorem setColF_wf (t : Table) (name : String) (f : String × List (Option ℚ) → Option ℚ)
    (hwf : TableWF t) : TableWF (setColF t name f) := by
  unfold setColF
  cases hidx : idxOf? name t.cols with
  | some i =>
    intro r hr
    simp only [List.mem_map] at hr
    obtain ⟨r0, hr0, rfl⟩ := hr
    simpa using hwf r0 hr0
  | none =>
    intro r hr
    simp only [List.mem_map] at hr
    obtain ⟨r0, hr0, rfl⟩ := hr
    simpa using hwf r0 hr0

theorem setColF_name_mem (t : Table) (name : String) (f : String × List (Option ℚ) → Option ℚ) :
    name ∈ (setColF t name f).cols := by
  unfold setColF
  cases hidx : idxOf? name t.cols with
  | some i =>
    obtain ⟨_, hg⟩ := idxOf?_getElem name t.cols i hidx
    exact List.getElem?_mem hg
  | none => simp

theorem setColF_cols_nodup (t : Table) (name : String)
    (f : String × List (Option ℚ) → Option ℚ) (h : t.cols.Nodup) :
    (setColF t name f).cols.Nodup := by
  unfold setColF
  cases hidx : idxOf? name t.cols with
  | some i => exact h
  | none =>
    have : name ∉ t.cols := (idxOf?_eq_none_iff name t.cols).mp hidx
    simp [List.nodup_append, h, this]

theorem setColF_eq_some (t : Table) (name : String)
    (f : String × List (Option ℚ) → Option ℚ) (i : ℕ) (hidx : idxOf? name t.cols = some i) :
    setColF t name f =
      { cols := t.cols, rows := t.rows.map (fun r => (r.1, r.2.set i (f r))) } := by
  unfold setColF
  rw [hidx]

theorem setColF_eq_none (t : Table) (name : String)
    (f : String × List (Option ℚ) → Option ℚ) (hidx : idxOf? name t.cols = none) :
    setColF t name f =
      { cols := t.cols ++ [name], rows := t.rows.map (fun r => (r.1, r.2 ++ [f r])) } := by
  unfold setColF
  rw [hidx]

theorem getCell_setColF_self (t : Table) (name : String)
    (f : String × List (Option ℚ) → Option ℚ) (hwf : TableWF t)
    (hnd : (t.rows.map (fun r => r.1)).Nodup) (k : String) (cells : List (Option ℚ))
    (hm : (k, cells) ∈ t.rows) :
    getCell (setColF t name f) k name = f (k, cells) := by
  have hfind := find?_keys_nodup t.rows hnd k cells hm
  have hlen : cells.length = t.cols.length := hwf (k, cells) hm
  cases hidx : idxOf? name t.cols with
  | some i =>
    obtain ⟨hlt, _⟩ := idxOf?_getElem name t.cols i hidx
    rw [setColF_eq_some t name f i hidx]
    have hfind2 : List.find? (fun r => r.1 == k)
        (t.rows.map (fun r => (r.1, r.2.set i (f r)))) =
        some (k, cells.set i (f (k, cells))) := by
      rw [find?_map_keyed t.rows (fun r => (r.1, r.2.set i (f r))) (fun r => rfl) k, hfind]
      rfl
    simp only [getCell, rowOf, hfind2, hidx, Option.map_some']
    rw [List.getElem?_set_eq_of_lt _ (by rw [hlen]; exact hlt)]
    rfl
  | none =>
    rw [setColF_eq_none t name f hidx]
    have hfind2 : List.find? (fun r => r.1 == k)
        (t.rows.map (fun r => (r.1, r.2 ++ [f r]))) =
        some (k, cells ++ [f (k, cells)]) := by
      rw [find?_map_keyed t.rows (fun r => (r.1, r.2 ++ [f r])) (fun r => rfl) k, hfind]
      rfl
    have hidx2 : idxOf? name (t.cols ++ [name]) = some t.cols.length :=
      idxOf?_append_self name t.cols ((idxOf?_eq_none_iff name t.cols).mp hidx)
    simp only [getCell, rowOf, hfind2, hidx2, Option.map_some']
    rw [← hlen, List.getElem?_concat_length]
    rfl

theorem getCell_setColF_other (t : Table) (name : String)
    (f : String × List (Option ℚ) → Option ℚ) (hwf : TableWF t)
    (hnd : (t.rows.map (fun r => r.1)).Nodup) (k : String) (cells : List (Option ℚ))
    (hm : (k, cells) ∈ t.rows) (c : String) (hne : c ≠ name) :
    getCell (setColF t name f) k c = getCell t k c := by
  have hfind := find?_keys_nodup t.rows hnd k cells hm
  have hlen : cells.length = t.cols.length := hwf (k, cells) hm
  cases hidx : idxOf? name t.cols with
  | some i =>
    obtain ⟨hlt, hgi⟩ := idxOf?_getElem name t.cols i hidx
    rw [setColF_eq_some t name f i hidx]
    have hfind2 : List.find? (fun r => r.1 == k)
        (t.rows.map (fun r => (r.1, r.2.set i (f r)))) =
        some (k, cells.set i (f (k, cells))) := by
      rw [find?_map_keyed t.rows (fun r => (r.1, r.2.set i (f r))) (fun r => rfl) k, hfind]
      rfl
    cases hc : idxOf? c t.cols with
    | some j =>
      obtain ⟨hjlt, hgj⟩ := idxOf?_getElem c t.cols j hc
      have hij : i ≠ j := by
        intro e
        rw [e, hgj] at hgi
        injection hgi with h
        exact hne h
      simp only [getCell, rowOf, hfind2, hfind, hc, Option.map_some']
      rw [List.getElem?_set_ne hij]
    | none => simp only [getCell, rowOf, hfind2, hfind, hc, Option.map_some']
  | none =>
    rw [setColF_eq_none t name f hidx]
    have hfind2 : List.find? (fun r => r.1 == k)
        (t.rows.map (fun r => (r.1, r.2 ++ [f r]))) =
        some (k, cells ++ [f (k, cells)]) := by
      rw [find?_map_keyed t.rows (fun r => (r.1, r.2 ++ [f r])) (fun r => rfl) k, hfind]
      rfl
    have hcc : idxOf? c (t.cols ++ [name]) = idxOf? c t.cols :=
      idxOf?_append_ne c name t.cols hne
    cases hc : idxOf? c t.cols with
    | some j =>
      obtain ⟨hjlt, hgj⟩ := idxOf?_getElem c t.cols j hc
      simp only [getCell, rowOf, hfind2, hfind, hcc, hc, Option.map_some']
      rw [List.getElem?_append_left (by rw [hlen]; exact hjlt)]
    | none => simp only [getCell, rowOf, hfind2, hfind, hcc, hc, Option.map_some']

/- Lemmas about `rowDateCells`, `dateColsOf` and `updateAverageWith`. -/

theorem rowDateCells_set_nondate (cols : List String) (cells : List (Option ℚ)) (i : ℕ)
    (v : Option ℚ) (hc : ∀ nm, cols[i]? = some nm → isDateCol nm = false) :
    rowDateCells cols (cells.set i v) = rowDateCells cols cells := by
  induction cols generalizing cells i with
  | nil => rfl
  | cons c0 cols ih =>
    cases cells with
    | nil => rfl
    | cons x xs =>
      cases i with
      | zero =>
        have h0 : isDateCol c0 = false := hc c0 (by simp)
        unfold rowDateCells
        rw [List.set_cons_zero, List.zip_cons_cons, List.zip_cons_cons,
          List.filter_cons, List.filter_cons]
        simp [h0]
      | succ j =>
        have hih := ih xs j (fun nm h => hc nm (by simpa using h))
        unfold rowDateCells at hih ⊢
        rw [List.set_cons_succ, List.zip_cons_cons, List.zip_cons_cons,
          List.filter_cons, List.filter_cons]
        by_cases hd : isDateCol (c0, x).1 <;> simp [hd, hih]

theorem rowDateCells_append_nondate (cols : List String) (cells : List (Option ℚ))
    (nm : String) (v : Option ℚ) (hlen : cells.length = cols.length)
    (h : isDateCol nm = false) :
    rowDateCells (cols ++ [nm]) (cells ++ [v]) = rowDateCells cols cells := by
  unfold rowDateCells
  rw [List.zip_append hlen.symm]
  simp [List.filter_append, h]

theorem dateColsOf_setColF_nondate (t : Table) (name : String)
    (f : String × List (Option ℚ) → Option ℚ) (h : isDateCol name = false) :
    dateColsOf (setColF t name f) = dateColsOf t := by
  unfold dateColsOf
  cases hidx : idxOf? name t.cols with
  | some i => rw [setColF_eq_some t name f i hidx]
  | none =>
    rw [setColF_eq_none t name f hidx]
    simp [List.filter_append, h]

theorem isDateCol_avg : isDateCol "Average Score" = false := by decide

theorem dateColsOf_ne_nil_of_mem (t : Table) (d : String) (hd : isDateCol d = true)
    (hmem : d ∈ t.cols) : dateColsOf t ≠ [] := by
  intro h
  have hm : d ∈ dateColsOf t := List.mem_filter.mpr ⟨hmem, hd⟩
  rw [h] at hm
  cases hm

theorem updateAverageWith_of_ne_nil (post : Option ℚ → Option ℚ) (t : Table)
    (h : dateColsOf t ≠ []) :
    updateAverageWith post t =
      setColF t "Average Score" (fun r => post (rowMean (rowDateCells t.cols r.2))) := by
  unfold updateAverageWith
  rw [if_neg h]

theorem updateAverageWith_of_nil (post : Option ℚ → Option ℚ) (t : Table)
    (h : dateColsOf t = []) : updateAverageWith post t = t := by
  unfold updateAverageWith
  rw [if_pos h]

theorem map_congr_mem {α β : Type} (l : List α) (f g : α → β) (h : ∀ a ∈ l, f a = g a) :
    l.map f = l.map g := by
  induction l with
  | nil => rfl
  | cons a l ih =>
    rw [List.map_cons, List.map_cons, h a (by simp), ih (fun b hb => h b (by simp [hb]))]

theorem updateAverageWith_idem (post : Option ℚ → Option ℚ) (t : Table) (hwf : TableWF t) :
    updateAverageWith post (updateAverageWith post t) = updateAverageWith post t := by
  by_cases h : dateColsOf t = []
  · rw [updateAverageWith_of_nil post t h, updateAverageWith_of_nil post t h]
  · rw [updateAverageWith_of_ne_nil post t h]
    cases hidx : idxOf? "Average Score" t.cols with
    | some i =>
      obtain ⟨hlt, hgi⟩ := idxOf?_getElem _ t.cols i hidx
      have hcnd : ∀ nm, t.cols[i]? = some nm → isDateCol nm = false := by
        intro nm hnm
        rw [hgi] at hnm
        injection hnm with e
        rw [← e]
        exact isDateCol_avg
      rw [setColF_eq_some t "Average Score" _ i hidx]
      have hdc : dateColsOf (Table.mk t.cols (t.rows.map (fun r =>
          (r.1, r.2.set i (post (rowMean (rowDateCells t.cols r.2))))))) ≠ [] := h
      rw [updateAverageWith_of_ne_nil post _ hdc]
      have hidx2 : idxOf? "Average Score" (Table.mk t.cols (t.rows.map (fun r =>
          (r.1, r.2.set i (post (rowMean (rowDateCells t.cols r.2))))))).cols = some i := hidx
      rw [setColF_eq_some _ "Average Score" _ i hidx2]
      congr 1
      rw [List.map_map]
      refine map_congr_mem _ _ _ (fun r0 hr0 => ?_)
      show (r0.1, (r0.2.set i (post (rowMean (rowDateCells t.cols r0.2)))).set i
          (post (rowMean (rowDateCells t.cols
            (r0.2.set i (post (rowMean (rowDateCells t.cols r0.2)))))))) =
        (r0.1, r0.2.set i (post (rowMean (rowDateCells t.cols r0.2))))
      rw [rowDateCells_set_nondate t.cols r0.2 i _ hcnd, List.set_set]
    | none =>
      have hnm : "Average Score" ∉ t.cols := (idxOf?_eq_none_iff _ t.cols).mp hidx
      rw [setColF_eq_none t "Average Score" _ hidx]
      have hdceq : dateColsOf (Table.mk (t.cols ++ ["Average Score"]) (t.rows.map (fun r =>
          (r.1, r.2 ++ [post (rowMean (rowDateCells t.cols r.2))])))) = dateColsOf t := by
        unfold dateColsOf
        simp [List.filter_append, isDateCol_avg]
      have hdc : dateColsOf (Table.mk (t.cols ++ ["Average Score"]) (t.rows.map (fun r =>
          (r.1, r.2 ++ [post (rowMean (rowDateCells t.cols r.2))])))) ≠ [] := by
        rw [hdceq]
        exact h
      rw [updateAverageWith_of_ne_nil post _ hdc]
      have hidx2 : idxOf? "Average Score" (Table.mk (t.cols ++ ["Average Score"])
          (t.rows.map (fun r => (r.1, r.2 ++ [post (rowMean (rowDateCells t.cols r.2))])))).cols =
          some t.cols.length :=
        idxOf?_append_self _ t.cols hnm
      rw [setColF_eq_some _ "Average Score" _ t.cols.length hidx2]
      congr 1
      rw [List.map_map]
      refine map_congr_mem _ _ _ (fun r0 hr0 => ?_)
      have hlen : r0.2.length = t.cols.length := hwf r0 hr0
      show (r0.1, (r0.2 ++ [post (rowMean (rowDateCells t.cols r0.2))]).set t.cols.length
          (post (rowMean (rowDateCells (t.cols ++ ["Average Score"])
            (r0.2 ++ [post (rowMean (rowDateCells t.cols r0.2))]))))) =
        (r0.1, r0.2 ++ [post (rowMean (rowDateCells t.cols r0.2))])
      rw [rowDateCells_append_nondate t.cols r0.2 _ _ hlen isDateCol_avg,
        List.set_append_right _ _ (le_of_eq hlen), ← hlen]
      simp

/-- C1: For every non-empty candidate list the resolver returns the value of a
candidate that is maximal in the lexicographic order (rank descending, then
value descending) — so a higher-rank candidate always wins regardless of
extraction order, and among equal-rank candidates the numerically larger value
wins — and for the empty candidate list the resolver returns `none` rather
than failing. -/
theorem resolve_policy :
    resolveCandidates [] = none ∧
    ∀ l : List Cand, l ≠ [] →
      ∃ c, c ∈ l ∧ resolveCandidates l = some c.2 ∧ ∀ b ∈ l, candGE c b := by
  constructor
  · rfl
  · intro l hl
    cases hs : List.insertionSort candGE l with
    | nil =>
      have hnil : List.Perm l [] := by
        have h := List.perm_insertionSort candGE l
        rw [hs] at h
        exact h.symm
      exact absurd hnil.eq_nil hl
    | cons c rest =>
      have hperm : List.Perm (List.insertionSort candGE l) l := List.perm_insertionSort candGE l
      have hsorted : List.Sorted candGE (c :: rest) := hs ▸ List.sorted_insertionSort candGE l
      refine ⟨c, ?_, ?_, ?_⟩
      · exact hperm.mem_iff.mp (by rw [hs]; exact List.mem_cons_self c rest)
      · unfold resolveCandidates
        rw [hs]
      · intro b hb
        have hb' : b ∈ c :: rest := by
          rw [← hs]
          exact hperm.mem_iff.mpr hb
        rcases List.mem_cons.mp hb' with h | h
        · exact h ▸ candGE_refl c
        · exact List.rel_of_sorted_cons hsorted b h

/-- Witness for C1 at the spec's example input
`[(rank=6, val=8.6), (rank=6, val=5.0)]`. -/
theorem resolve_policy_witness :
    ∃ c, c ∈ [((6 : Int), (8.6 : ℚ)), (6, 5)] ∧
      resolveCandidates [((6 : Int), (8.6 : ℚ)), (6, 5)] = some c.2 ∧
      ∀ b ∈ [((6 : Int), (8.6 : ℚ)), (6, 5)], candGE c b :=
  resolve_policy.2 _ (List.cons_ne_nil _ _)

/-- C3 counterexample: the claim that every extracted raw value is first
comma-normalized and then range-filtered fails on both cited functions, at the
concrete inputs `"11.0"` (Booking) and `"8,6"` (Expedia).
`fetch_booking_rating` applies no range filter, so the out-of-range value
`11.0` is returned by extraction (and `"11,0"` is comma-normalized to the same
out-of-range result); `_safe_float` never normalizes a comma — `float("8,6")`
raises, so the value is dropped rather than read as `8.6`. -/
theorem extraction_range_cex :
    fetch_booking_rating [some "11.0"] = some 11 ∧
    fetch_booking_rating [some "11,0"] = some 11 ∧
    _safe_float (some "8,6") = none ∧
    _safe_float (some "8.6") = some (43 / 5) ∧
    getCell (applyRun_booking tC3 "2025-01-01" [("H", some 11)]) "H" "2025-01-01" = some 11 := by
  refine ⟨?_, ?_, ?_, ?_, ?_⟩
  all_goals
    simp +decide [tC3, applyRun_booking, setColByKey, setColF, idxOf?, update_average_booking,
      updateAverageWith, dateColsOf, isDateCol, rowDateCells, rowMean, getCell, rowOf,
      fetch_booking_rating, _safe_float, commaToDot, pyFloat?, pyFloatCore,
      digitsVal, charDigit, isDigitChar]
  all_goals try norm_num

/-- C3 amended: Expedia's `_safe_float` drops (never clamps) every candidate
whose parsed value lies outside `[0, 10]`, but performs no comma
normalization — a comma-decimal raw value fails `float` and is dropped;
Booking's `fetch_booking_rating` normalizes a comma decimal separator to a
period but applies no range filter, passing the parsed value through
unchanged. -/
theorem extraction_normalization_spec :
    (∀ s q, _safe_float (some s) = some q → pyFloat? s = some q ∧ 0 ≤ q ∧ q ≤ 10) ∧
    (∀ s q, pyFloat? s = some q → ¬(0 ≤ q ∧ q ≤ 10) → _safe_float (some s) = none) ∧
    (∀ v, fetch_booking_rating [some v] = pyFloat? (commaToDot v)) ∧
    _safe_float none = none := by
  refine ⟨?_, ?_, fun v => rfl, rfl⟩
  · intro s q h
    have h' : (match pyFloat? s with
        | none => none
        | some score => if 0 ≤ score ∧ score ≤ 10 then some score else none) = some q := h
    cases hp : pyFloat? s with
    | none => rw [hp] at h'; exact absurd h' (by simp)
    | some score =>
      rw [hp] at h'
      have h2 : (if 0 ≤ score ∧ score ≤ 10 then some score else none) = some q := h'
      by_cases hr : 0 ≤ score ∧ score ≤ 10
      · rw [if_pos hr] at h2
        injection h2 with hq
        subst hq
        exact ⟨rfl, hr⟩
      · rw [if_neg hr] at h2
        exact absurd h2 (by simp)
  · intro s q h hr
    show (match pyFloat? s with
        | none => none
        | some score => if 0 ≤ score ∧ score ≤ 10 then some score else none) = none
    rw [h]
    exact if_neg (fun hc => hr hc)

/-- Witness for C3's amended theorem at the inputs `"8.6"`, `"11.0"` and
`"8,6"`. -/
theorem extraction_normalization_witness :
    (pyFloat? "8.6" = some (43 / 5) ∧ 0 ≤ (43 / 5 : ℚ) ∧ (43 / 5 : ℚ) ≤ 10) ∧
    _safe_float (some "11.0") = none ∧
    fetch_booking_rating [some "8,6"] = pyFloat? (commaToDot "8,6") := by
  refine ⟨?_, ?_, extraction_normalization_spec.2.2.1 _⟩
  · refine extraction_normalization_spec.1 "8.6" (43 / 5) ?_
    simp +decide [_safe_float, pyFloat?, pyFloatCore, digitsVal, charDigit, isDigitChar]
    norm_num
  · refine extraction_normalization_spec.2.1 "11.0" 11 ?_ (by norm_num)
    simp +decide [pyFloat?, pyFloatCore, digitsVal, charDigit, isDigitChar]

/-- C4 counterexample: the extraction strategies do short-circuit.  With the
JSON-LD strategy resolving to `5` (rank 0) and the embedded-script strategy
holding the higher-ranked candidate `(rank 6, 8.6)`, `get_expedia_score`
returns `5`, whereas ranking the union of all found candidates — what the
claim requires — would return `8.6`. -/
theorem strategy_shortcircuit_cex :
    get_expedia_score [((0 : Int), (5 : ℚ))] none none [((6 : Int), (8.6 : ℚ))] = some 5 ∧
    resolveCandidates ([((0 : Int), (5 : ℚ))] ++ [((6 : Int), (8.6 : ℚ))]) = some 8.6 ∧
    (5 : ℚ) ≠ 8.6 := by
  refine ⟨?_, ?_, by norm_num⟩ <;>
    simp +decide [get_expedia_score, resolveCandidates, List.insertionSort,
      List.orderedInsert, candGE]

/-- C4 amended: the four strategies run in fixed priority order and the first
strategy producing a score short-circuits the rest, layer by layer: a JSON-LD
resolution is returned with every later strategy ignored; with JSON-LD empty,
a semantic-div score is returned with the textual and embedded strategies
ignored; with both empty, a textual score is returned with the embedded
strategy ignored; the embedded strategy's candidates are consulted only when
all three earlier strategies produced nothing. -/
theorem get_expedia_priority_spec (jsonldCands : List Cand)
    (semanticDiv textual : Option ℚ) (embeddedCands : List Cand) :
    (∀ s, resolveCandidates jsonldCands = some s →
      get_expedia_score jsonldCands semanticDiv textual embeddedCands = some s) ∧
    (∀ s, resolveCandidates jsonldCands = none → semanticDiv = some s →
      get_expedia_score jsonldCands semanticDiv textual embeddedCands = some s) ∧
    (∀ s, resolveCandidates jsonldCands = none → semanticDiv = none → textual = some s →
      get_expedia_score jsonldCands semanticDiv textual embeddedCands = some s) ∧
    (resolveCandidates jsonldCands = none → semanticDiv = none → textual = none →
      get_expedia_score jsonldCands semanticDiv textual embeddedCands =
        resolveCandidates embeddedCands) := by
  refine ⟨?_, ?_, ?_, ?_⟩
  · intro s h
    unfold get_expedia_score
    rw [h]
  · intro s h1 h2
    unfold get_expedia_score
    rw [h1, h2]
  · intro s h1 h2 h3
    unfold get_expedia_score
    rw [h1, h2, h3]
  · intro h1 h2 h3
    unfold get_expedia_score
    rw [h1, h2, h3]

/-- Witness for C4's amended theorem: all four priority layers exercised at
the counterexample's candidates, with the rank-6 embedded candidate `8.6`
suppressed in the first three. -/
theorem get_expedia_priority_witness :
    get_expedia_score [((0 : Int), (5 : ℚ))] none none [((6 : Int), (8.6 : ℚ))] = some 5 ∧
    get_expedia_score [] (some 7) (some 3) [((6 : Int), (8.6 : ℚ))] = some 7 ∧
    get_expedia_score [] none (some 3) [((6 : Int), (8.6 : ℚ))] = some 3 ∧
    get_expedia_score [] none none [((6 : Int), (8.6 : ℚ))] =
      resolveCandidates [((6 : Int), (8.6 : ℚ))] := by
  refine ⟨?_, ?_, ?_, ?_⟩
  · exact (get_expedia_priority_spec _ _ _ _).1 5 rfl
  · exact (get_expedia_priority_spec _ _ _ _).2.1 7 rfl rfl
  · exact (get_expedia_priority_spec _ _ _ _).2.2.1 3 rfl rfl rfl
  · exact (get_expedia_priority_spec _ _ _ _).2.2.2 rfl rfl rfl

/-- C2 counterexample: `update_average` of `src/sites/booking.py` does not
round — for the row `[1, 1, 2]` it writes the raw mean `4/3`, which differs
from its two-decimal rounding `1.33`; and on a ledger with no date-shaped
column a row with zero valid date cells keeps its stale Average value `9`
instead of being nulled. -/
theorem update_average_rounding_cex :
    getCell (update_average_booking tC2) "H" "Average Score" = some (4 / 3) ∧
    round2 (4 / 3) = 133 / 100 ∧ (4 / 3 : ℚ) ≠ 133 / 100 ∧
    getCell (update_average_booking tC2b) "H" "Average Score" = some 9 := by
  refine ⟨?_, ?_, by norm_num, ?_⟩
  · simp +decide [tC2, update_average_booking, updateAverageWith, dateColsOf, isDateCol,
      isDigitChar, setColF, idxOf?, getCell, rowOf, rowDateCells, rowMean]
    norm_num
  · unfold round2 roundHalfEven
    norm_num
  · simp +decide [tC2b, update_average_booking, updateAverageWith, dateColsOf, isDateCol,
      isDigitChar, getCell, rowOf, idxOf?]

/-- C2 amended: provided the ledger has at least one date-shaped column, after
`update_average` every row's `Average Score` cell equals the arithmetic mean
of the row's non-null cells under date-shaped columns (null cells excluded
from the denominator; a row with zero valid date cells gets a null average) —
rounded to 2 decimal places in `src/sites/expedia.py`, but unrounded in
`src/sites/booking.py`.  (With no date-shaped column both are no-ops.) -/
theorem update_average_mean_spec (t : Table) (hwf : TableWF t)
    (hnd : (t.rows.map (fun r => r.1)).Nodup) (_hcols : t.cols.Nodup)
    (hd : dateColsOf t ≠ []) :
    ∀ k cells, (k, cells) ∈ t.rows →
      getCell (update_average_expedia t) k "Average Score" =
        (rowMean (rowDateCells t.cols cells)).map round2 ∧
      getCell (update_average_booking t) k "Average Score" =
        rowMean (rowDateCells t.cols cells) := by
  intro k cells hm
  constructor
  · unfold update_average_expedia
    rw [updateAverageWith_of_ne_nil _ t hd]
    exact getCell_setColF_self t "Average Score" _ hwf hnd k cells hm
  · unfold update_average_booking
    rw [updateAverageWith_of_ne_nil _ t hd]
    exact getCell_setColF_self t "Average Score" _ hwf hnd k cells hm

/-- Witness for C2's amended theorem at the spec's example ledger. -/
theorem update_average_mean_spec_witness :
    (TableWF tC2w ∧ (tC2w.rows.map (fun r => r.1)).Nodup ∧ tC2w.cols.Nodup ∧
      dateColsOf tC2w ≠ []) ∧
    ∀ k cells, (k, cells) ∈ tC2w.rows →
      getCell (update_average_expedia tC2w) k "Average Score" =
        (rowMean (rowDateCells tC2w.cols cells)).map round2 ∧
      getCell (update_average_booking tC2w) k "Average Score" =
        rowMean (rowDateCells tC2w.cols cells) :=
  ⟨⟨by decide, by decide, by decide, by decide⟩,
    update_average_mean_spec tC2w (by decide) (by decide) (by decide) (by decide)⟩

/-- C10: For every ledger that contains no column whose header matches the
date shape, every `update_average` variant (booking, expedia, google) is a
no-op: the whole table — the `Average Score` column and every other column —
keeps exactly the values it had before the call. -/
theorem update_average_no_date_noop (t : Table) (h : dateColsOf t = []) :
    update_average_booking t = t ∧ update_average_expedia t = t ∧
    update_average_google t = t :=
  ⟨updateAverageWith_of_nil _ t h, updateAverageWith_of_nil _ t h,
    updateAverageWith_of_nil _ t h⟩

/-- Witness for C10 at a ledger with no date-shaped column. -/
theorem update_average_no_date_noop_witness :
    dateColsOf tC10 = [] ∧
    (update_average_booking tC10 = tC10 ∧ update_average_expedia tC10 = tC10 ∧
      update_average_google tC10 = tC10) :=
  ⟨by decide, update_average_no_date_noop tC10 (by decide)⟩

/-- A row keyed `k` survives `setColF` (with updated cells). -/
theorem setColF_row_exists (t : Table) (n : String) (f : String × List (Option ℚ) → Option ℚ)
    (k : String) (cells : List (Option ℚ)) (hm : (k, cells) ∈ t.rows) :
    ∃ cs, (k, cs) ∈ (setColF t n f).rows := by
  cases hidx : idxOf? n t.cols with
  | some i =>
    rw [setColF_eq_some t n f i hidx]
    exact ⟨cells.set i (f (k, cells)), List.mem_map.mpr ⟨(k, cells), hm, rfl⟩⟩
  | none =>
    rw [setColF_eq_none t n f hidx]
    exact ⟨cells ++ [f (k, cells)], List.mem_map.mpr ⟨(k, cells), hm, rfl⟩⟩

/-- C9: `ensure_row` and `ensure_column` are idempotent — the second call with
the same key changes nothing — and starting from a table holding at most one
row (column) for the key, the two calls leave exactly one row (column) for it,
never a duplicate. -/
theorem ensure_idempotent (t : Table) (k c : String) :
    ensure_row (ensure_row t k) k = ensure_row t k ∧
    ensure_column (ensure_column t c) c = ensure_column t c ∧
    ((t.rows.map (fun r => r.1)).count k ≤ 1 →
      ((ensure_row (ensure_row t k) k).rows.map (fun r => r.1)).count k = 1) ∧
    (t.cols.count c ≤ 1 → (ensure_column (ensure_column t c) c).cols.count c = 1) := by
  have hrowid : ∀ s : Table, k ∈ s.rows.map (fun r => r.1) → ensure_row s k = s := by
    intro s hs
    unfold ensure_row
    rw [if_pos hs]
  have hcolid : ∀ s : Table, c ∈ s.cols → ensure_column s c = s := by
    intro s hs
    unfold ensure_column
    rw [if_pos hs]
  have hrowadd : k ∉ t.rows.map (fun r => r.1) → ensure_row t k =
      Table.mk t.cols (t.rows ++ [(k, List.replicate t.cols.length none)]) := by
    intro hk
    unfold ensure_row
    rw [if_neg hk]
  have hcoladd : c ∉ t.cols → ensure_column t c =
      Table.mk (t.cols ++ [c]) (t.rows.map (fun r => (r.1, r.2 ++ [none]))) := by
    intro hc
    unfold ensure_column
    rw [if_neg hc]
  have hmem2 : k ∈ (Table.mk t.cols
      (t.rows ++ [(k, List.replicate t.cols.length none)])).rows.map (fun r => r.1) := by
    simp
  have hmem3 : c ∈ (Table.mk (t.cols ++ [c])
      (t.rows.map (fun r => (r.1, r.2 ++ [none])))).cols := by
    simp
  refine ⟨?_, ?_, ?_, ?_⟩
  · by_cases hk : k ∈ t.rows.map (fun r => r.1)
    · rw [hrowid t hk, hrowid t hk]
    · rw [hrowadd hk, hrowid _ hmem2]
  · by_cases hc : c ∈ t.cols
    · rw [hcolid t hc, hcolid t hc]
    · rw [hcoladd hc, hcolid _ hmem3]
  · intro hle
    by_cases hk : k ∈ t.rows.map (fun r => r.1)
    · rw [hrowid t hk, hrowid t hk]
      exact le_antisymm hle (List.count_pos_iff.mpr hk)
    · rw [hrowadd hk, hrowid _ hmem2]
      simp [List.count_append, List.count_eq_zero.mpr hk]
  · intro hle
    by_cases hc : c ∈ t.cols
    · rw [hcolid t hc, hcolid t hc]
      exact le_antisymm hle (List.count_pos_iff.mpr hc)
    · rw [hcoladd hc, hcolid _ hmem3]
      simp [List.count_append, List.count_eq_zero.mpr hc]

/-- Witness for C9: the count conclusions at a concrete one-row ledger and
fresh keys. -/
theorem ensure_idempotent_witness :
    ((tC9.rows.map (fun r => r.1)).count "B" ≤ 1 ∧ tC9.cols.count "2025-01-01" ≤ 1) ∧
    ((ensure_row (ensure_row tC9 "B") "B").rows.map (fun r => r.1)).count "B" = 1 ∧
    (ensure_column (ensure_column tC9 "2025-01-01") "2025-01-01").cols.count "2025-01-01" = 1 :=
  ⟨⟨by decide, by decide⟩,
    (ensure_idempotent tC9 "B" "2025-01-01").2.2.1 (by decide),
    (ensure_idempotent tC9 "B" "2025-01-01").2.2.2 (by decide)⟩

theorem setColF_cols_some (t : Table) (n : String) (f : String × List (Option ℚ) → Option ℚ)
    (i : ℕ) (hidx : idxOf? n t.cols = some i) : (setColF t n f).cols = t.cols := by
  rw [setColF_eq_some t n f i hidx]

theorem setColF_cols_none (t : Table) (n : String) (f : String × List (Option ℚ) → Option ℚ)
    (hidx : idxOf? n t.cols = none) : (setColF t n f).cols = t.cols ++ [n] := by
  rw [setColF_eq_none t n f hidx]

/-- After `updateAverageWith`, every row's Average cell equals `post` of the
mean over that row's own (current) date cells: the Average column is
consistent with the column contents. -/
theorem updateAverageWith_consistent (post : Option ℚ → Option ℚ) (t : Table)
    (hwf : TableWF t) (hnd : (t.rows.map (fun r => r.1)).Nodup)
    (hdc : dateColsOf t ≠ []) :
    ∀ k cellsF, (k, cellsF) ∈ (updateAverageWith post t).rows →
      getCell (updateAverageWith post t) k "Average Score" =
        post (rowMean (rowDateCells (updateAverageWith post t).cols cellsF)) := by
  intro k cellsF hmF
  rw [updateAverageWith_of_ne_nil post t hdc] at hmF ⊢
  cases hidxA : idxOf? "Average Score" t.cols with
  | some i =>
    obtain ⟨hlt, hgi⟩ := idxOf?_getElem _ t.cols i hidxA
    have hcnd : ∀ nm, t.cols[i]? = some nm → isDateCol nm = false := by
      intro nm hnm
      rw [hgi] at hnm
      injection hnm with e
      rw [← e]
      exact isDateCol_avg
    have hrows : (setColF t "Average Score"
        (fun r => post (rowMean (rowDateCells t.cols r.2)))).rows =
        t.rows.map (fun r => (r.1, r.2.set i (post (rowMean (rowDateCells t.cols r.2))))) := by
      rw [setColF_eq_some _ _ _ i hidxA]
    rw [hrows] at hmF
    obtain ⟨r1, hr1, he⟩ := List.mem_map.mp hmF
    have he1 : r1.1 = k := congrArg Prod.fst he
    have he2 : r1.2.set i (post (rowMean (rowDateCells t.cols r1.2))) = cellsF :=
      congrArg Prod.snd he
    have hm1 : (k, r1.2) ∈ t.rows := by
      rw [← he1]
      exact hr1
    rw [getCell_setColF_self t "Average Score" _ hwf hnd k r1.2 hm1,
      setColF_cols_some t _ _ i hidxA, ← he2,
      rowDateCells_set_nondate t.cols r1.2 i _ hcnd]
  | none =>
    have hrows : (setColF t "Average Score"
        (fun r => post (rowMean (rowDateCells t.cols r.2)))).rows =
        t.rows.map (fun r => (r.1, r.2 ++ [post (rowMean (rowDateCells t.cols r.2))])) := by
      rw [setColF_eq_none _ _ _ hidxA]
    rw [hrows] at hmF
    obtain ⟨r1, hr1, he⟩ := List.mem_map.mp hmF
    have he1 : r1.1 = k := congrArg Prod.fst he
    have he2 : r1.2 ++ [post (rowMean (rowDateCells t.cols r1.2))] = cellsF :=
      congrArg Prod.snd he
    have hm1 : (k, r1.2) ∈ t.rows := by
      rw [← he1]
      exact hr1
    have hlen : r1.2.length = t.cols.length := hwf r1 hr1
    rw [getCell_setColF_self t "Average Score" _ hwf hnd k r1.2 hm1,
      setColF_cols_none t _ _ hidxA, ← he2,
      rowDateCells_append_nondate t.cols r1.2 _ _ hlen isDateCol_avg]

/-- C7: For every run applied to the booking ledger (`df[today_col] =
pd.Series(new_scores)` then `update_average`), each in-scope hotel whose
resolved value is present has that value persisted in the run-date column,
while a hotel whose value is absent (or out of scope) ends with a null cell —
no sentinel — so a partially-failed run still persists the hotels that
succeeded; and afterwards every row's Average cell equals the mean over that
row's date cells (the average is recomputed after the cells are applied). -/
theorem applyRun_booking_spec (t : Table) (d : String) (scores : List (String × Option ℚ))
    (hwf : TableWF t) (hnd : (t.rows.map (fun r => r.1)).Nodup) (_hcols : t.cols.Nodup)
    (hd : isDateCol d = true) :
    ∀ k cells, (k, cells) ∈ t.rows →
      getCell (applyRun_booking t d scores) k d = (scores.lookup k).join ∧
      ∀ cellsFinal, (k, cellsFinal) ∈ (applyRun_booking t d scores).rows →
        getCell (applyRun_booking t d scores) k "Average Score" =
          rowMean (rowDateCells (applyRun_booking t d scores).cols cellsFinal) := by
  intro k cells hm
  have hdne : d ≠ "Average Score" := by
    intro e
    rw [e, isDateCol_avg] at hd
    cases hd
  have hwf1 : TableWF (setColByKey t d scores) := setColF_wf t d _ hwf
  have hnd1 : ((setColByKey t d scores).rows.map (fun r => r.1)).Nodup := by
    unfold setColByKey
    rw [setColF_keys]
    exact hnd
  have hdmem : d ∈ (setColByKey t d scores).cols := setColF_name_mem t d _
  have hdc1 : dateColsOf (setColByKey t d scores) ≠ [] :=
    dateColsOf_ne_nil_of_mem _ d hd hdmem
  obtain ⟨cells1, hm1⟩ := setColF_row_exists t d _ k cells hm
  constructor
  · unfold applyRun_booking update_average_booking
    rw [updateAverageWith_of_ne_nil _ _ hdc1]
    rw [getCell_setColF_other _ "Average Score" _ hwf1 hnd1 k cells1 hm1 d hdne]
    unfold setColByKey
    rw [getCell_setColF_self t d _ hwf hnd k cells hm]
  · intro cellsFinal hmF
    unfold applyRun_booking update_average_booking at hmF ⊢
    exact updateAverageWith_consistent _ _ hwf1 hnd1 hdc1 k cellsFinal hmF

/-- Witness for C7: a partially-failed run (hotel `A` resolved `8.6`, hotel
`B` absent) applied to a concrete ledger. -/
theorem applyRun_booking_spec_witness :
    (TableWF tC7 ∧ (tC7.rows.map (fun r => r.1)).Nodup ∧ tC7.cols.Nodup ∧
      isDateCol "2025-02-03" = true) ∧
    ∀ k cells, (k, cells) ∈ tC7.rows →
      getCell (applyRun_booking tC7 "2025-02-03" [("A", some (8.6 : ℚ)), ("B", none)]) k
          "2025-02-03" = (List.lookup k [("A", some (8.6 : ℚ)), ("B", none)]).join ∧
      ∀ cellsFinal, (k, cellsFinal) ∈
          (applyRun_booking tC7 "2025-02-03" [("A", some (8.6 : ℚ)), ("B", none)]).rows →
        getCell (applyRun_booking tC7 "2025-02-03" [("A", some (8.6 : ℚ)), ("B", none)]) k
            "Average Score" =
          rowMean (rowDateCells
            (applyRun_booking tC7 "2025-02-03" [("A", some (8.6 : ℚ)), ("B", none)]).cols
            cellsFinal) :=
  ⟨⟨by decide, by decide, by decide, by decide⟩,
    applyRun_booking_spec tC7 "2025-02-03" [("A", some (8.6 : ℚ)), ("B", none)]
      (by decide) (by decide) (by decide) (by decide)⟩

/-- C8: When the ledger file exists but lacks the mandatory `Hotel` column,
the load fails (`read_csv` raises, `load_source_df` returns `None`) and the
booking run aborts before any write: `run_booking_main` produces no output
file, leaving the on-disk ledger unchanged. -/
theorem load_missing_hotel_aborts (header : List String) (body : List (List String))
    (hotels : List String) (d : String) (scores : List (String × Option ℚ))
    (h : "Hotel" ∉ header) :
    loadCSV (header :: body) = none ∧
    ensure_csv (header :: body) hotels = none ∧
    run_booking_main (header :: body) hotels d scores = none ∧
    load_source_df (header :: body) = none := by
  have hidx : idxOf? "Hotel" header = none := (idxOf?_eq_none_iff "Hotel" header).mpr h
  have hl : loadCSV (header :: body) = none := by
    show (match idxOf? "Hotel" header with
      | none => none
      | some i =>
        some (Table.mk (header.eraseIdx i)
          (body.map (fun r => ((r[i]?).getD "", (r.eraseIdx i).map parseCell))))) =
      (none : Option Table)
    rw [hidx]
  refine ⟨hl, ?_, ?_, ?_⟩
  · unfold ensure_csv
    rw [hl]
    rfl
  · unfold run_booking_main ensure_csv
    rw [hl]
    rfl
  · unfold load_source_df
    rw [hl]
    rfl

/-- Witness for C8 at a concrete header misspelling the `Hotel` column. -/
theorem load_missing_hotel_aborts_witness :
    loadCSV [["Name", "2025-01-01"], ["A", "4.5"]] = none ∧
    ensure_csv [["Name", "2025-01-01"], ["A", "4.5"]] [] = none ∧
    run_booking_main [["Name", "2025-01-01"], ["A", "4.5"]] [] "2025-01-01" [] = none ∧
    load_source_df [["Name", "2025-01-01"], ["A", "4.5"]] = none :=
  load_missing_hotel_aborts ["Name", "2025-01-01"] [["A", "4.5"]] [] "2025-01-01" []
    (by decide)

/-- C5 counterexample: loading a ledger with rows `"Hotel A"` (null cell) and
`" Hotel A "` (cell `7.0`) does collapse them to one row keyed by the trimmed
form — but the collapsed row holds `7.0`, the first *non-null* value among the
duplicates, not the first-seen row's (null) data as the claim states. -/
theorem load_first_nonnull_cex :
    load_source_df fileC5 = some (Table.mk ["2025-01-01"] [("Hotel A", [some 7])]) ∧
    load_source_df fileC5 ≠ some (Table.mk ["2025-01-01"] [("Hotel A", [none])]) ∧
    (some (7 : ℚ) : Option ℚ) ≠ none := by
  have h : load_source_df fileC5 = some (Table.mk ["2025-01-01"] [("Hotel A", [some 7])]) := by
    simp +decide [fileC5, load_source_df, loadCSV, idxOf?, pyStrip, isPySpace, parseCell,
      pyFloat?, pyFloatCore, digitsVal, charDigit, isDigitChar, List.insertionSort,
      List.orderedInsert, List.dedup, firstNonNullCells, List.range, List.range.loop]
  refine ⟨h, ?_, by simp⟩
  rw [h]
  intro he
  injection he with he
  have := congrArg Table.rows he
  simp at this

/-- C5 amended: on an existing ledger file with the `Hotel` column, the
dashboard loader trims every hotel key and collapses duplicate trimmed keys to
a single row (one row per distinct trimmed key); each collapsed cell holds,
per column, the first non-null value among the duplicate rows in file order —
the first-seen row's value when that cell is non-null.  (The booking-side
`ensure_csv` loader performs no such normalization.) -/
theorem load_source_df_spec (file : List (List String)) (t0 t : Table)
    (h0 : loadCSV file = some t0) (ht : load_source_df file = some t) :
    (t.rows.map (fun r => r.1)).Nodup ∧
    (∀ k, k ∈ t.rows.map (fun r => r.1) ↔ ∃ r, r ∈ t0.rows ∧ pyStrip r.1 = k) ∧
    (∀ k cells, (k, cells) ∈ t.rows →
      cells = firstNonNullCells t0.cols.length
        ((t0.rows.map (fun r => (pyStrip r.1, r.2))).filter (fun r => r.1 == k))) := by
  unfold load_source_df at ht
  rw [h0] at ht
  simp only [Option.map_some'] at ht
  injection ht with ht
  subst ht
  have hkeys : ∀ kk : String,
      kk ∈ (List.insertionSort (fun a b : String => a ≤ b)
        ((t0.rows.map (fun r => (pyStrip r.1, r.2))).map (fun r => r.1))).dedup ↔
      ∃ r, r ∈ t0.rows ∧ pyStrip r.1 = kk := by
    intro kk
    rw [List.mem_dedup,
      (List.perm_insertionSort (fun a b : String => a ≤ b) _).mem_iff]
    constructor
    · intro hm
      obtain ⟨p, hp, he⟩ := List.mem_map.mp hm
      obtain ⟨r, hr, he2⟩ := List.mem_map.mp hp
      exact ⟨r, hr, by rw [← he, ← he2]⟩
    · intro ⟨r, hr, he⟩
      exact List.mem_map.mpr ⟨(pyStrip r.1, r.2),
        List.mem_map.mpr ⟨r, hr, rfl⟩, he⟩
  refine ⟨?_, ?_, ?_⟩
  · rw [List.map_map]
    have he : ((fun r : String × List (Option ℚ) => r.1) ∘ (fun k =>
        (k, firstNonNullCells t0.cols.length
          ((t0.rows.map (fun r => (pyStrip r.1, r.2))).filter (fun r => r.1 == k))))) =
        fun k : String => k := rfl
    rw [he, List.map_id']
    exact List.nodup_dedup _
  · intro k
    rw [List.map_map]
    have he : ((fun r : String × List (Option ℚ) => r.1) ∘ (fun k =>
        (k, firstNonNullCells t0.cols.length
          ((t0.rows.map (fun r => (pyStrip r.1, r.2))).filter (fun r => r.1 == k))))) =
        fun k : String => k := rfl
    rw [he, List.map_id']
    exact hkeys k
  · intro k cells hm
    obtain ⟨kk, _, he⟩ := List.mem_map.mp hm
    have he1 : kk = k := congrArg Prod.fst he
    have he2 := congrArg Prod.snd he
    simp only at he2
    rw [← he2, he1]

/-- Witness for C5's amended theorem at a concrete duplicate-key file. -/
theorem load_source_df_spec_witness :
    ∃ t0 t : Table, loadCSV fileC5w = some t0 ∧ load_source_df fileC5w = some t ∧
      ((t.rows.map (fun r => r.1)).Nodup ∧
      (∀ k, k ∈ t.rows.map (fun r => r.1) ↔ ∃ r, r ∈ t0.rows ∧ pyStrip r.1 = k) ∧
      (∀ k cells, (k, cells) ∈ t.rows →
        cells = firstNonNullCells t0.cols.length
          ((t0.rows.map (fun r => (pyStrip r.1, r.2))).filter (fun r => r.1 == k)))) := by
  have h0 : loadCSV fileC5w = some (Table.mk ["2025-01-01"]
      [("Hotel A ", [some (4.5 : ℚ)]), ("Hotel A", [some 3]), ("B", [none])]) := by
    simp +decide [fileC5w, loadCSV, idxOf?, parseCell, pyFloat?, pyFloatCore,
      digitsVal, charDigit, isDigitChar]
    norm_num
  have ht : load_source_df fileC5w = some (Table.mk ["2025-01-01"]
      (((List.insertionSort (fun a b : String => a ≤ b)
        (((Table.mk ["2025-01-01"] [("Hotel A ", [some (4.5 : ℚ)]), ("Hotel A", [some 3]),
          ("B", [none])]).rows.map (fun r => (pyStrip r.1, r.2))).map (fun r => r.1))).dedup.map
        (fun k => (k, firstNonNullCells 1
          (((Table.mk ["2025-01-01"] [("Hotel A ", [some (4.5 : ℚ)]), ("Hotel A", [some 3]),
            ("B", [none])]).rows.map (fun r => (pyStrip r.1, r.2))).filter
              (fun r => r.1 == k))))))) := by
    unfold load_source_df
    rw [h0]
    rfl
  exact ⟨_, _, h0, ht, load_source_df_spec fileC5w _ _ h0 ht⟩

/- Digit-level print/parse lemmas for the CSV round trip (C6). -/

theorem charDigit_digitChar (d : ℕ) (h : d < 10) : charDigit (digitChar d) = d := by
  interval_cases d <;> rfl

theorem isDigitChar_digitChar (d : ℕ) (h : d < 10) : isDigitChar (digitChar d) = true := by
  interval_cases d <;> rfl

theorem natChars_ne_nil (n : ℕ) : natChars n ≠ [] := by
  unfold natChars
  by_cases h : n = 0
  · simp [h]
  · rw [if_neg h]
    intro he
    rw [List.map_eq_nil_iff] at he
    rw [List.reverse_eq_nil_iff] at he
    exact Nat.digits_ne_nil_iff_ne_zero.mpr h he

theorem natChars_all_digits (n : ℕ) : ∀ c ∈ natChars n, isDigitChar c = true := by
  unfold natChars
  by_cases h : n = 0
  · rw [if_pos h]
    intro c hc
    rw [List.mem_singleton] at hc
    subst hc
    rfl
  · rw [if_neg h]
    intro c hc
    rw [List.mem_map] at hc
    obtain ⟨d, hd, rfl⟩ := hc
    exact isDigitChar_digitChar d (Nat.digits_lt_base (by norm_num) (List.mem_reverse.mp hd))

theorem foldr_digits_val (l : List ℕ) (h : ∀ d ∈ l, d < 10) :
    l.foldr (fun d a => 10 * a + charDigit (digitChar d)) 0 = Nat.ofDigits 10 l := by
  induction l with
  | nil => rfl
  | cons d l ih =>
    rw [List.foldr_cons, Nat.ofDigits_cons,
      ih (fun x hx => h x (List.mem_cons.mpr (Or.inr hx))),
      charDigit_digitChar d (h d (List.mem_cons_self d l))]
    ring

theorem digitsVal_natChars (n : ℕ) : digitsVal (natChars n) = n := by
  unfold natChars
  by_cases h : n = 0
  · rw [if_pos h, h]
    rfl
  · rw [if_neg h]
    unfold digitsVal
    rw [List.map_reverse, List.foldl_reverse]
    have he : List.foldr (fun x y => 10 * y + charDigit x) 0
        ((Nat.digits 10 n).map digitChar) =
        List.foldr (fun d a => 10 * a + charDigit (digitChar d)) 0 (Nat.digits 10 n) := by
      rw [List.foldr_map]
    rw [he, foldr_digits_val _ (fun d hd => Nat.digits_lt_base (by norm_num) hd),
      Nat.ofDigits_digits]

theorem digitsVal_leading_zeros (k : ℕ) (l : List Char) :
    digitsVal (List.replicate k '0' ++ l) = digitsVal l := by
  induction k with
  | zero => rfl
  | succ m ih =>
    unfold digitsVal at ih ⊢
    rw [List.replicate_succ, List.cons_append, List.foldl_cons]
    simpa using ih

theorem natChars_length_le (n k : ℕ) (hk : 1 ≤ k) (h : n < 10 ^ k) :
    (natChars n).length ≤ k := by
  unfold natChars
  by_cases h0 : n = 0
  · rw [if_pos h0]
    exact hk
  · rw [if_neg h0, List.length_map, List.length_reverse]
    by_contra hlt
    push_neg at hlt
    have hb := Nat.base_pow_length_digits_le 10 n (by norm_num) h0
    have h1 : (10 : ℕ) ^ (k + 1) ≤ 10 ^ (Nat.digits 10 n).length :=
      Nat.pow_le_pow_right (by norm_num) hlt
    have h2 : (10 : ℕ) ^ (k + 1) ≤ 10 * n := le_trans h1 hb
    rw [pow_succ] at h2
    have h3 : 10 * 10 ^ k ≤ 10 * n := by linarith
    have h4 : 10 ^ k ≤ n := Nat.le_of_mul_le_mul_left h3 (by norm_num)
    exact absurd h (not_lt.mpr h4)

theorem takeWhile_append_stop (p : Char → Bool) (A B : List Char)
    (hA : ∀ a ∈ A, p a = true) (b : Char) (hb : p b = false) :
    (A ++ b :: B).takeWhile p = A ∧ (A ++ b :: B).dropWhile p = b :: B := by
  induction A with
  | nil => simp [List.takeWhile_cons, List.dropWhile_cons, hb]
  | cons a A ih =>
    have hpa : p a = true := hA a (by simp)
    obtain ⟨ht, hd⟩ := ih (fun x hx => hA x (by simp [hx]))
    simp [List.takeWhile_cons, List.dropWhile_cons, hpa, ht, hd]

theorem isDigitChar_not_sign (a : Char) (h : isDigitChar a = true) :
    a ≠ '-' ∧ a ≠ '+' := by
  constructor <;> intro e <;> subst e <;> exact absurd h (by decide)

theorem pyFloat?_eq_core (s : String) (a : Char) (L : List Char) (hdata : s.data = a :: L)
    (h1 : a ≠ '-') (h2 : a ≠ '+') : pyFloat? s = pyFloatCore (a :: L) := by
  unfold pyFloat?
  split
  · rename_i heq
    rw [hdata] at heq
    cases heq
  · rename_i c rest heq
    rw [hdata] at heq
    injection heq with e1 e2
    subst e1
    subst e2
    rw [if_neg h1, if_neg h2]

theorem pyFloatCore_decimal (A B : List Char) (hAne : A ≠ [])
    (hA : ∀ a ∈ A, isDigitChar a = true) (hB : ∀ b ∈ B, isDigitChar b = true) :
    pyFloatCore (A ++ '.' :: B) =
      some ((digitsVal A : ℚ) + (digitsVal B : ℚ) / (10 : ℚ) ^ B.length) := by
  obtain ⟨htake, hdrop⟩ := takeWhile_append_stop isDigitChar A B hA '.' (by decide)
  unfold pyFloatCore
  rw [htake, hdrop]
  rw [if_neg (List.cons_ne_nil '.' B)]
  rw [List.head?_cons]
  rw [if_pos (show some '.' = some '.' from rfl)]
  rw [List.tail_cons]
  rw [if_neg (fun hc => hAne hc.1)]
  rw [if_pos (List.all_eq_true.mpr hB)]

theorem pyFloat?_printQ (q : ℚ) (m : ℕ) (hm : q * 10 ^ 9 = (m : ℚ)) :
    pyFloat? (printQ q) = some q := by
  have hn : (q * 10 ^ 9).num.toNat = m := by
    rw [hm]
    simp
  have hfplt : m % 10 ^ 9 < 10 ^ 9 := Nat.mod_lt _ (by norm_num)
  have hlen9 : (natChars (m % 10 ^ 9)).length ≤ 9 :=
    natChars_length_le _ 9 (by norm_num) hfplt
  have hB : ∀ b ∈ List.replicate (9 - (natChars (m % 10 ^ 9)).length) '0'
      ++ natChars (m % 10 ^ 9), isDigitChar b = true := by
    intro b hb
    rcases List.mem_append.mp hb with hb1 | hb2
    · rw [List.eq_of_mem_replicate hb1]
      rfl
    · exact natChars_all_digits _ b hb2
  have hdata : (printQ q).data = natChars (m / 10 ^ 9) ++ '.' ::
      (List.replicate (9 - (natChars (m % 10 ^ 9)).length) '0' ++ natChars (m % 10 ^ 9)) := by
    simp only [printQ, hn]
  have hcore := pyFloatCore_decimal (natChars (m / 10 ^ 9))
    (List.replicate (9 - (natChars (m % 10 ^ 9)).length) '0' ++ natChars (m % 10 ^ 9))
    (natChars_ne_nil _) (natChars_all_digits _) hB
  cases hAc : natChars (m / 10 ^ 9) with
  | nil => exact absurd hAc (natChars_ne_nil _)
  | cons a A' =>
    have ha : isDigitChar a = true := by
      refine natChars_all_digits (m / 10 ^ 9) a ?_
      rw [hAc]
      simp
    obtain ⟨h1, h2⟩ := isDigitChar_not_sign a ha
    have hd2 : (printQ q).data = a :: (A' ++ '.' ::
        (List.replicate (9 - (natChars (m % 10 ^ 9)).length) '0' ++ natChars (m % 10 ^ 9))) := by
      rw [hdata, hAc]
      rfl
    rw [pyFloat?_eq_core (printQ q) a _ hd2 h1 h2]
    rw [hAc, List.cons_append] at hcore
    rw [hcore, ← hAc]
    have hlenB : (List.replicate (9 - (natChars (m % 10 ^ 9)).length) '0'
        ++ natChars (m % 10 ^ 9)).length = 9 := by
      rw [List.length_append, List.length_replicate]
      omega
    rw [digitsVal_leading_zeros, digitsVal_natChars, digitsVal_natChars, hlenB]
    have h109 : ((10 : ℚ) ^ 9) ≠ 0 := by norm_num
    have hqm : q = (m : ℚ) / 10 ^ 9 := by
      rw [eq_div_iff h109]
      exact hm
    have hdm : m / 10 ^ 9 * 10 ^ 9 + m % 10 ^ 9 = m := by
      rw [mul_comm]
      exact Nat.div_add_mod m (10 ^ 9)
    have key : ((m / 10 ^ 9 : ℕ) : ℚ) + ((m % 10 ^ 9 : ℕ) : ℚ) / 10 ^ 9 = (m : ℚ) / 10 ^ 9 := by
      rw [eq_div_iff h109, add_mul, div_mul_cancel₀ _ h109]
      exact_mod_cast congrArg (fun x : ℕ => (x : ℚ)) hdm
    rw [hqm]
    exact congrArg some key

theorem parseCell_printCell (c : Option ℚ) (h : RepCell c) :
    parseCell (printCell c) = c := by
  cases c with
  | none => rfl
  | some q =>
    obtain ⟨m, hm⟩ := h q rfl
    show parseCell (printQ q) = some q
    unfold parseCell
    rw [if_neg ?hne]
    · exact pyFloat?_printQ q m hm
    case hne =>
      have hdata := natChars_ne_nil ((q * 10 ^ 9).num.toNat / 10 ^ 9)
      intro he
      have : (printQ q).data = natChars ((q * 10 ^ 9).num.toNat / 10 ^ 9) ++ '.' ::
          (List.replicate
            (9 - (natChars ((q * 10 ^ 9).num.toNat % 10 ^ 9)).length) '0' ++
              natChars ((q * 10 ^ 9).num.toNat % 10 ^ 9)) := by
        simp only [printQ]
      rw [this] at he
      rcases List.append_eq_nil.mp he with ⟨_, h2⟩
      cases h2

/-- `read_csv(index_col="Hotel")` undoes `to_csv(index_label="Hotel")`: the
split-field file written by `saveTable` parses back to the very same table,
provided every cell is a representable score. -/
theorem loadCSV_saveTable (t : Table)
    (hcells : ∀ r ∈ t.rows, ∀ c ∈ r.2, RepCell c) :
    loadCSV (saveTable t) = some t := by
  have hidx : idxOf? "Hotel" ("Hotel" :: t.cols) = some 0 := by
    simp [idxOf?]
  show (match idxOf? "Hotel" ("Hotel" :: t.cols) with
    | none => none
    | some i =>
      some (Table.mk (("Hotel" :: t.cols).eraseIdx i)
        ((t.rows.map (fun r => r.1 :: r.2.map printCell)).map (fun r =>
          ((r[i]?).getD "", (r.eraseIdx i).map parseCell))))) = some t
  rw [hidx]
  show some (Table.mk (("Hotel" :: t.cols).eraseIdx 0)
      ((t.rows.map (fun r => r.1 :: r.2.map printCell)).map (fun r =>
        ((r[0]?).getD "", (r.eraseIdx 0).map parseCell)))) = some t
  rw [List.map_map]
  congr 1
  cases t with
  | mk cols rows =>
    simp only
    congr 1
    refine map_eq_self_of _ _ (fun r hr => ?_)
    have hcell : r.2.map (fun c => parseCell (printCell c)) = r.2 :=
      map_eq_self_of _ _ (fun c hc => parseCell_printCell c (hcells r hr c hc))
    simp only [Function.comp_apply, List.getElem?_cons_zero, Option.getD_some,
      List.eraseIdx_cons_zero, List.map_map]
    have hc2 : List.map (parseCell ∘ printCell) r.2 = r.2 := hcell
    rw [hc2]

/-- C6: Round trip — `save` (`to_csv`) followed by `load` (`read_csv` /
`ensure_csv` on a ledger already seeded with the hotel list and an Average
column) yields a ledger with the identical hotel-key list, identical columns
and identical cell values; and `update_average` (booking and expedia
variants) is idempotent: a second application leaves every Average cell — and
the whole table — unchanged. -/
theorem save_load_roundtrip (t : Table) (hwf : TableWF t)
    (_hH : "Hotel" ∉ t.cols) (_hkeys : ∀ r ∈ t.rows, r.1 ≠ "")
    (hcells : ∀ r ∈ t.rows, ∀ c ∈ r.2, RepCell c)
    (hotels : List String) (hhot : ∀ h ∈ hotels, h ∈ t.rows.map (fun r => r.1))
    (havg : "Average Score" ∈ t.cols) :
    loadCSV (saveTable t) = some t ∧
    ensure_csv (saveTable t) hotels = some t ∧
    update_average_booking (update_average_booking t) = update_average_booking t ∧
    update_average_expedia (update_average_expedia t) = update_average_expedia t := by
  have hrt := loadCSV_saveTable t hcells
  have hfold : ∀ hs : List String, (∀ h ∈ hs, h ∈ t.rows.map (fun r => r.1)) →
      hs.foldl ensure_row t = t := by
    intro hs
    induction hs with
    | nil => intro _; rfl
    | cons h0 hs ih =>
      intro hmem
      rw [List.foldl_cons]
      have he : ensure_row t h0 = t := by
        unfold ensure_row
        rw [if_pos (hmem h0 (by simp))]
      rw [he]
      exact ih (fun x hx => hmem x (by simp [hx]))
  refine ⟨hrt, ?_, updateAverageWith_idem _ t hwf, updateAverageWith_idem _ t hwf⟩
  unfold ensure_csv
  rw [hrt]
  simp only [Option.map_some']
  rw [hfold hotels hhot]
  unfold ensure_column
  rw [if_pos havg]

/-- Witness for C6 at a concrete one-hotel ledger holding `8.6`. -/
theorem save_load_roundtrip_witness :
    (TableWF tC6 ∧ "Hotel" ∉ tC6.cols ∧ (∀ r ∈ tC6.rows, r.1 ≠ "") ∧
      (∀ h ∈ ["A"], h ∈ tC6.rows.map (fun r => r.1)) ∧ "Average Score" ∈ tC6.cols) ∧
    loadCSV (saveTable tC6) = some tC6 ∧
    ensure_csv (saveTable tC6) ["A"] = some tC6 ∧
    update_average_booking (update_average_booking tC6) = update_average_booking tC6 ∧
    update_average_expedia (update_average_expedia tC6) = update_average_expedia tC6 := by
  have hcells : ∀ r ∈ tC6.rows, ∀ c ∈ r.2, RepCell c := by
    intro r hr c hc q hq
    simp only [tC6, List.mem_singleton] at hr
    subst hr
    simp only [List.mem_cons, List.not_mem_nil, or_false] at hc
    rcases hc with rfl | rfl
    · injection hq with hq'
      subst hq'
      exact ⟨8600000000, by norm_num⟩
    · cases hq
  exact ⟨⟨by decide, by decide, by decide, by decide, by decide⟩,
    save_load_roundtrip tC6 (by decide) (by decide) (by decide) hcells ["A"]
      (by decide) (by decide)⟩

end RepAnalyzer
